import Mathlib

/-!
Verification of the options performance evaluation engine of the
OptionsTradingTS repository, as a shallow embedding in Lean 4.

Modelling conventions:
* JavaScript numbers are modelled as exact rationals.  Inputs are the
  numeric strings of the exchange data model (digits, optional sign,
  optional decimal point, optional thousands-separator commas) together
  with the placeholder marker.  IEEE NaN/Infinity values, which only
  arise from inputs outside that data model, are not represented; where
  a NaN can flow out of a date computation it is modelled as an absent
  value (Option), with JavaScript comparison semantics (every comparison
  against NaN is false).
* Runtime facilities of the JavaScript host that the code calls -- the
  Date string parser of the engine, toISOString, the timezone shift of
  date-fns-tz, Math.pow on doubles -- are parameters collected in a
  JsEnv record.  All theorems quantify over the environment, except
  where a claim pins the timezone (America/New_York offsets).
* Array.prototype.sort with a comparator is a stable sort; it is
  modelled by insertion sort with the corresponding total preorder.
* The exceptions a row can raise inside evaluatePutOptionsPerformance
  (TypeError on an undefined expiry field, RangeError from toISOString
  on an Invalid Date) are modelled with Except.
-/

namespace OptionsTrading

/-! ## Numeric string parsing (safeParseFloat and parseInt) -/

/-- Numeric value of a list of decimal digit characters. -/
def digitsVal (cs : List Char) : Nat :=
  cs.foldl (fun acc c => 10 * acc + (c.toNat - 48)) 0

/-- Model of parseFloat on the numeric strings of the data model:
optional sign, integer digits, optional fractional digits.  Strings
with no leading numeric prefix (which parseFloat sends to NaN) are
outside the data model and parse to 0 here. -/
def jsParseFloat (s : String) : ℚ :=
  let cs := s.data
  let sign : ℚ := match cs.head? with
    | some c => if c = '-' then -1 else 1
    | none => 1
  let cs := match cs.head? with
    | some c => if c = '-' ∨ c = '+' then cs.tail else cs
    | none => cs
  let intPart := cs.takeWhile Char.isDigit
  let rest := cs.dropWhile Char.isDigit
  let fracPart := match rest.head? with
    | some c => if c = '.' then rest.tail.takeWhile Char.isDigit else []
    | none => []
  sign * ((digitsVal intPart : ℚ) + (digitsVal fracPart : ℚ) / 10 ^ fracPart.length)

/-- Model of parseInt on the day tokens: optional sign then leading
digits; none when no digit is found (parseInt returns NaN there). -/
def jsParseInt (s : String) : Option Int :=
  let cs := s.data
  let sign : Int := match cs.head? with
    | some c => if c = '-' then -1 else 1
    | none => 1
  let cs := match cs.head? with
    | some c => if c = '-' ∨ c = '+' then cs.tail else cs
    | none => cs
  let ds := cs.takeWhile Char.isDigit
  match ds with
  | [] => none
  | _ => some (sign * (digitsVal ds : Int))

/-- The string with all comma characters removed, modelling
value.replace of the comma regular expression with the empty string. -/
def stripCommas (s : String) : String :=
  String.mk (s.data.filter (fun c => c ≠ ','))

/-- safeParseFloat of utils: undefined, the empty string and the
placeholder marker give 0, every other value is parsed after removing
thousands-separator commas. -/
def safeParseFloat : Option String → ℚ
  | none => 0
  | some s => if s = "" ∨ s = "--" then 0 else jsParseFloat (stripCommas s)

/-- JavaScript string defaulting idiom (value or a default string):
undefined and the empty string are falsy and give the default. -/
def jsOrS : Option String → String → String
  | none, d => d
  | some s, d => if s = "" then d else s

/-! ## JavaScript comparison idioms on possibly-NaN numbers -/

/-- JavaScript strictly-less-than where either side may be NaN (none):
any comparison involving NaN is false. -/
def jsLtO : Option ℚ → Option ℚ → Bool
  | some a, some b => decide (a < b)
  | _, _ => false

/-- JavaScript greater-or-equal against a plain number where the left
side may be NaN (none): false on NaN. -/
def jsGeQ : Option ℚ → ℚ → Bool
  | some a, c => decide (c ≤ a)
  | none, _ => false

/-! ## Data model -/

/-- A raw options-chain row as delivered by the quote provider.  All
fields are optional strings, mirroring the OptionChainLink interface. -/
structure OptionChainLink where
  strike : Option String
  p_Bid : Option String
  c_Bid : Option String
  c_Ask : Option String
  expiryDate : Option String
  expirygroup : Option String
deriving DecidableEq, Repr

/-- An analysis result, mirroring OptionAnalysisResult.  The expiry
timestamp and day count are optional because an unresolvable expiry
token inside the spread evaluator produces an Invalid Date whose day
count is NaN.  The two spread-only fields are none for put results. -/
structure OptionAnalysisResult where
  ticker : String
  currentPrice : ℚ
  strikePrice : ℚ
  expDateStr : String
  expDate : Option Int
  daysToExpiration : Option Int
  bid : ℚ
  percentageFromStrike : ℚ
  ROI : ℚ
  annualizedROI : Option ℚ
  spreadWidthPercent : Option ℚ
  longStrike : Option ℚ
deriving DecidableEq, Repr

/-- Host-runtime facilities the engine calls, collected as parameters:
the clock, the current month/year used by convertStringToDate, the
America/New_York shift applied by toZonedTime, the Date constructor on
expiry-group labels, toISOString, Math.pow on doubles, and the Date
constructor on assembled year-month-day strings.  A none result of the
two date constructors is an Invalid Date. -/
structure JsEnv where
  now : Int
  currMonth : Int
  currYear : Int
  tzOffset : Int → Int
  parseDate : String → Option Int
  isoDate : Int → String
  qpow : ℚ → ℚ → ℚ
  mkDate : Int → Int → Option Int → Option Int

/-! ## Pricing math -/

/-- calculatePercentageChange of utils. -/
def calculatePercentageChange (targetPrice currentPrice : ℚ) : ℚ :=
  (targetPrice - currentPrice) / currentPrice * 100

/-- Milliseconds in a day, as in daysUntil. -/
def millisecondsInADay : Int := 24 * 60 * 60 * 1000

/-- daysUntil of the newest utils: shift both the target date and now
into the exchange timezone, take the ceiling of the day difference and
clamp the result to at least 1. -/
def daysUntil (env : JsEnv) (date : Int) : Int :=
  let nycDate := date + env.tzOffset date
  let nycNow := env.now + env.tzOffset env.now
  let days := ⌈((nycDate - nycNow : Int) : ℚ) / ((millisecondsInADay : Int) : ℚ)⌉
  max 1 days

/-- The annualized-ROI formula shared by the put evaluator and the
credit spread optimizer, over the reals: compound the single-period
return to a 365-day year.  Math.pow on a nonnegative base agrees with
real exponentiation, so the real formula is the idealization of the
code. -/
noncomputable def annualizedROIFormula (roiDecimal horizon : ℝ) : ℝ :=
  ((1 + roiDecimal) ^ (365 / horizon) - 1) * 100

/-! ## Strike threshold resolution -/

/-- calculateMaxStrikePrice of the newest utils: both branches multiply
the configured value by the current price. -/
def calculateMaxStrikePrice (priceMultiplier currentPrice : ℚ) : ℚ :=
  if 1 ≤ priceMultiplier then currentPrice * priceMultiplier
  else currentPrice * priceMultiplier

/-- calculateMaxStrikePrice of the older utils (kept for the record):
a value of at least 1 is taken as an absolute dollar price. -/
def calculateMaxStrikePriceLegacy (maxPrice currentPrice : ℚ) : ℚ :=
  if 1 ≤ maxPrice then maxPrice
  else currentPrice * maxPrice

/-- The strike threshold the specification describes: the configured
value times the current price, in either branch. -/
def maxStrikeThresholdSpec (threshold currentPrice : ℚ) : ℚ :=
  threshold * currentPrice

/-! ## Date and expiry resolution -/

/-- The three-letter month names of convertStringToDate. -/
def monthNames : List String :=
  ["Jan", "Feb", "Mar", "Apr", "May", "Jun",
   "Jul", "Aug", "Sep", "Oct", "Nov", "Dec"]

/-- The short-to-long month map of findExpiryGroupStartingWith. -/
def monthMap : List (String × String) :=
  [("Jan", "January"), ("Feb", "February"), ("Mar", "March"),
   ("Apr", "April"), ("May", "May"), ("Jun", "June"),
   ("Jul", "July"), ("Aug", "August"), ("Sep", "September"),
   ("Oct", "October"), ("Nov", "November"), ("Dec", "December")]

/-- String.split on the space character. -/
def splitOnSpace (s : String) : List String :=
  (s.data.splitOn ' ').map fun cs => String.mk cs

/-- startsWith on strings, as a prefix test on the character lists. -/
def jsStartsWith (s pre : String) : Bool :=
  pre.data.isPrefixOf s.data

/-- findExpiryGroupStartingWith of the newest utils: expand the short
month of the terse token to its full name and return the first
expiry-group label starting with the expanded month and day.  A missing
month mapping gives none; a missing day token stringifies to the text
undefined inside the template literal, exactly as in JavaScript. -/
def findExpiryGroupStartingWith (dateStr : String) (expiryGroups : List String) :
    Option String :=
  let parts := splitOnSpace dateStr
  let shortMonth := parts.headD ""
  let dayNum := (parts[1]?).getD "undefined"
  match monthMap.lookup shortMonth with
  | none => none
  | some longMonth =>
    let formattedDateStr := longMonth ++ " " ++ dayNum
    expiryGroups.find? (fun expiry => jsStartsWith expiry formattedDateStr)

/-- convertStringToDate of the newest utils: split the terse token,
look the month up among the short month names (JavaScript indexOf gives
-1 on a miss, so the month number is 0 there), infer the year from the
current month, and hand the assembled year-month-day to the Date
constructor of the environment. -/
def convertStringToDate (env : JsEnv) (stringDate : String) : Option Int :=
  let parts := splitOnSpace stringDate
  let monthName := parts.headD ""
  let dayStr := (parts[1]?).getD ""
  let day : Option Int := jsParseInt dayStr
  let idx : Int := match monthNames.indexOf? monthName with
    | some i => (i : Int)
    | none => -1
  let month : Int := idx + 1
  let year : Int := if env.currMonth ≤ month then env.currYear else env.currYear + 1
  env.mkDate year month day

/-! ## Put evaluator (newest utils) -/

/-- A map over a list whose body can throw, first exception wins,
modelling Array.prototype.map with a throwing callback. -/
def mapExcept (f : α → Except String β) : List α → Except String (List β)
  | [] => .ok []
  | a :: t => do
    let b ← f a
    let bs ← mapExcept f t
    return b :: bs

/-- The body of the map inside evaluatePutOptionsPerformance, for one
chain row.  An undefined expiry field makes the split inside
findExpiryGroupStartingWith throw a TypeError; a failed resolution
gives an Invalid Date whose toISOString throws a RangeError. -/
def evaluatePutRow (env : JsEnv) (currentPrice : ℚ) (ticker : String)
    (expiryGroups : List String) (chainLink : OptionChainLink) :
    Except String OptionAnalysisResult := do
  let optionPremiumBid := safeParseFloat chainLink.p_Bid
  let strikePrice := safeParseFloat chainLink.strike
  let expiryToken ← match chainLink.expiryDate with
    | none => Except.error "TypeError: dateStr is undefined"
    | some s => pure s
  let expDate : Option Int :=
    match findExpiryGroupStartingWith expiryToken expiryGroups with
    | none => none
    | some groupLabel => env.parseDate groupLabel
  let expDateMs ← match expDate with
    | none => Except.error "RangeError: Invalid time value"
    | some ms => pure ms
  let expDateStr := env.isoDate expDateMs
  let daysToExpiration := daysUntil env expDateMs
  let daysToCollateralRelease := daysToExpiration + 2
  let percentageFromStrike := calculatePercentageChange strikePrice currentPrice
  let ROI := optionPremiumBid / strikePrice * 100
  let roiDecimal := optionPremiumBid / strikePrice
  let annualizedROI :=
    (env.qpow (1 + roiDecimal) (365 / ((daysToCollateralRelease : Int) : ℚ)) - 1) * 100
  return { ticker := ticker
           currentPrice := currentPrice
           strikePrice := strikePrice
           expDateStr := expDateStr
           expDate := some expDateMs
           daysToExpiration := some daysToExpiration
           bid := optionPremiumBid
           percentageFromStrike := percentageFromStrike
           ROI := ROI
           annualizedROI := some annualizedROI
           spreadWidthPercent := none
           longStrike := none }

/-- evaluatePutOptionsPerformance of the newest utils: map every row to
a result and keep only those whose annualized ROI reaches the hard
15-percent threshold. -/
def evaluatePutOptionsPerformance (env : JsEnv) (chain : List OptionChainLink)
    (currentPrice : ℚ) (ticker : String) (expiryGroups : List String) :
    Except String (List OptionAnalysisResult) := do
  let results ← mapExcept (evaluatePutRow env currentPrice ticker expiryGroups) chain
  return results.filter (fun result => jsGeQ result.annualizedROI 15)

/-! ## Cherry filter, grouped mode (newest utils) -/

/-- Lexicographic comparison of character lists by code point,
modelling the sign of localeCompare on the plain date strings the
filter sorts. -/
def charListLt : List Char → List Char → Bool
  | [], [] => false
  | [], _ :: _ => true
  | _ :: _, [] => false
  | a :: as, b :: bs =>
    if a.toNat < b.toNat then true
    else if b.toNat < a.toNat then false
    else charListLt as bs

/-- Strict string ordering used in place of localeCompare. -/
def strLt (a b : String) : Bool := charListLt a.data b.data

/-- The sort comparator of the grouped cherry filter: by expiry-date
string, then by strike ascending. -/
def cherrySortRel (a b : OptionAnalysisResult) : Prop :=
  strLt a.expDateStr b.expDateStr = true ∨
    (a.expDateStr = b.expDateStr ∧ a.strikePrice ≤ b.strikePrice)

instance : DecidableRel cherrySortRel := fun a b =>
  inferInstanceAs (Decidable (_ ∨ _))

/-- The adjacent-pair dominance test of the cherry filter: strictly
closer to the money and a strictly higher premium. -/
def cherryDominates (prev curr : OptionAnalysisResult) : Bool :=
  decide (|curr.percentageFromStrike| < |prev.percentageFromStrike|) &&
    decide (prev.bid < curr.bid)

/-- The per-group scan of the grouped cherry filter: every element at
index at least 1 that dominates its immediate predecessor. -/
def cherriesOfGroup : List OptionAnalysisResult → List OptionAnalysisResult
  | [] => []
  | [_] => []
  | prev :: curr :: rest =>
    (if cherryDominates prev curr then [curr] else []) ++
      cherriesOfGroup (curr :: rest)

/-- The grouping scan of the grouped cherry filter: maximal runs of
rows sharing the expiry-date string of the run opener, with the run
under construction carried in reverse. -/
def groupRunsAux (key : String) (cur : List OptionAnalysisResult) :
    List OptionAnalysisResult → List (List OptionAnalysisResult)
  | [] => [cur.reverse]
  | a :: t =>
    if a.expDateStr = key then groupRunsAux key (a :: cur) t
    else cur.reverse :: groupRunsAux a.expDateStr [a] t

/-- Partition a sorted result list into contiguous same-expiry runs. -/
def groupRuns : List OptionAnalysisResult → List (List OptionAnalysisResult)
  | [] => []
  | a :: t => groupRunsAux a.expDateStr [a] t

/-- filterCherries of the newest utils (grouped mode): sort by expiry
string then strike, partition into same-expiry groups and collect the
adjacent-pair dominant rows of every group. -/
def filterCherries (putOptions : List OptionAnalysisResult) :
    List OptionAnalysisResult :=
  let sortedOptions := List.insertionSort cherrySortRel putOptions
  (groupRuns sortedOptions).flatMap cherriesOfGroup

/-! ## Cherry filter, sequential mode (older utils) -/

/-- A JavaScript Date object: an identity (reference) together with its
time value.  Strict equality of two Date objects compares references. -/
structure DateObj where
  refId : Nat
  time : Int
deriving DecidableEq, Repr

/-- An analysis result of the older put evaluator, whose expDate field
holds a Date object. -/
structure LegacyAnalysisResult where
  ticker : String
  currentPrice : ℚ
  strikePrice : ℚ
  expDateStr : String
  expDate : DateObj
  bid : ℚ
  percentageFromStrike : ℚ
  ROI : ℚ
deriving DecidableEq, Repr

/-- filterCherries of the older utils (sequential mode): a row is kept
iff its expDate object is strictly equal (same reference) to the one of
the immediately preceding row, its absolute percentage from strike is
smaller and its bid is strictly higher.  The first row is never kept. -/
def filterCherriesSeq (putOptions : List LegacyAnalysisResult) :
    List LegacyAnalysisResult :=
  (putOptions.enum.filter fun p =>
    match p with
    | (0, _) => false
    | (Nat.succ k, option) =>
      match putOptions[k]? with
      | none => false
      | some previousOption =>
        decide (option.expDate.refId = previousOption.expDate.refId) &&
          decide (|option.percentageFromStrike| <
            |previousOption.percentageFromStrike|) &&
          decide (previousOption.bid < option.bid)).map Prod.snd

/-! ## Credit spread optimizer -/

/-- The strike of a row under the defaulting idiom of the optimizer. -/
def parsedStrike (row : OptionChainLink) : ℚ :=
  safeParseFloat (some (jsOrS row.strike "0"))

/-- The call bid of a row under the defaulting idiom of the optimizer. -/
def parsedCallBid (row : OptionChainLink) : ℚ :=
  safeParseFloat (some (jsOrS row.c_Bid "0"))

/-- The call ask of a row under the defaulting idiom of the optimizer. -/
def parsedCallAsk (row : OptionChainLink) : ℚ :=
  safeParseFloat (some (jsOrS row.c_Ask "0"))

/-- The ascending-strike sort order of the optimizer. -/
def strikeLe (a b : OptionChainLink) : Prop :=
  parsedStrike a ≤ parsedStrike b

instance : DecidableRel strikeLe := fun a b =>
  inferInstanceAs (Decidable (_ ≤ _))

/-- Append a row to its expiry-date bucket, creating the bucket at the
end on first sight; models assignment into the optionsByExpiry object,
whose string keys keep insertion order. -/
def groupPush (acc : List (String × List OptionChainLink)) (key : String)
    (row : OptionChainLink) : List (String × List OptionChainLink) :=
  match acc with
  | [] => [(key, [row])]
  | (k, rs) :: rest =>
    if k = key then (k, rs ++ [row]) :: rest
    else (k, rs) :: groupPush rest key row

/-- Group a chain by its raw expiry-date tokens (undefined and empty
tokens share the empty-string bucket). -/
def groupByExpiry (chain : List OptionChainLink) :
    List (String × List OptionChainLink) :=
  chain.foldl (fun acc row => groupPush acc (jsOrS row.expiryDate "") row) []

/-- The forward scan for the long leg: the first row at a strictly
later position of the ascending-sorted group whose strike reaches the
target. -/
def findLongOption (laterOptions : List OptionChainLink)
    (targetLongStrike : ℚ) : Option OptionChainLink :=
  laterOptions.find? (fun potentialLongOption =>
    decide (targetLongStrike ≤ parsedStrike potentialLongOption))

/-- The price of the long leg: the quoted ask when truthy, else 1.1
times the bid (the documented fallback when ask data is absent). -/
def longAskPrice (longOption : OptionChainLink) : ℚ :=
  let a := parsedCallAsk longOption
  if a = 0 then parsedCallBid longOption * (11 / 10) else a

/-- One iteration of the short-strike loop of
evaluateCallCreditSpreadPerformance: given the candidate short row and
the strictly later rows of the sorted group, either reject the
candidate at one of the guards or build its result. -/
def evalOneShort (env : JsEnv) (currentPrice : ℚ) (ticker : String)
    (expDateStr : String) (spreadWidthPercent minAnnualizedROI : ℚ)
    (shortOption : OptionChainLink) (laterOptions : List OptionChainLink) :
    Option OptionAnalysisResult :=
  let shortStrike := parsedStrike shortOption
  let shortBid := parsedCallBid shortOption
  if shortBid ≤ 0 then none else
  let expDate := convertStringToDate env expDateStr
  let daysToExpiration := expDate.map (daysUntil env)
  let percentageFromStrike := calculatePercentageChange shortStrike currentPrice
  let targetLongStrike := shortStrike * (1 + spreadWidthPercent)
  match findLongOption laterOptions targetLongStrike with
  | none => none
  | some longOption =>
    let longStrike := parsedStrike longOption
    let longAsk := longAskPrice longOption
    if longAsk ≤ 0 then none else
    let netCredit := shortBid - longAsk
    if netCredit ≤ 0 then none else
    let maxRisk := longStrike - shortStrike - netCredit
    if maxRisk ≤ 0 then none else
    let roi := netCredit / maxRisk * 100
    let roiDecimal := roi / 100
    let annualizedROI := daysToExpiration.map (fun d =>
      (env.qpow (1 + roiDecimal) (365 / (((d + 2 : Int)) : ℚ)) - 1) * 100)
    if jsLtO annualizedROI (some minAnnualizedROI) then none else
    some { ticker := ticker
           currentPrice := currentPrice
           strikePrice := shortStrike
           expDateStr := expDateStr
           expDate := expDate
           daysToExpiration := daysToExpiration
           bid := netCredit
           percentageFromStrike := percentageFromStrike
           ROI := roi
           annualizedROI := annualizedROI
           spreadWidthPercent := some spreadWidthPercent
           longStrike := some longStrike }

/-- The short-strike loop over a sorted expiry group: every row except
the last is tried as the short leg against the strictly later rows. -/
def evalShorts (env : JsEnv) (currentPrice : ℚ) (ticker : String)
    (expDateStr : String) (spreadWidthPercent minAnnualizedROI : ℚ) :
    List OptionChainLink → List OptionAnalysisResult
  | [] => []
  | [_] => []
  | shortOption :: next :: rest =>
    (evalOneShort env currentPrice ticker expDateStr spreadWidthPercent
        minAnnualizedROI shortOption (next :: rest)).toList ++
      evalShorts env currentPrice ticker expDateStr spreadWidthPercent
        minAnnualizedROI (next :: rest)

/-- evaluateCallCreditSpreadPerformance: group the chain by raw expiry
token, sort every group by strike ascending and run the short-strike
loop.  The expiryGroups argument is accepted and unused, as in the
source. -/
def evaluateCallCreditSpreadPerformance (env : JsEnv)
    (chain : List OptionChainLink) (currentPrice : ℚ) (ticker : String)
    (expiryGroups : List String) (spreadWidthPercent minAnnualizedROI : ℚ) :
    List OptionAnalysisResult :=
  (groupByExpiry chain).flatMap (fun entry =>
    evalShorts env currentPrice ticker entry.1 spreadWidthPercent
      minAnnualizedROI (List.insertionSort strikeLe entry.2))

/-- The fixed ladder of spread widths the optimizer searches. -/
def spreadWidths : List ℚ :=
  [1/100, 2/100, 3/100, 5/100, 7/100, 10/100, 15/100, 20/100]

/-- The deduplication key: ticker, short strike and expiry-date string. -/
def keyOf (result : OptionAnalysisResult) : String × ℚ × String :=
  (result.ticker, result.strikePrice, result.expDateStr)

/-- One step of the deduplicating fold, modelling the Map update: a new
key is appended, an existing key keeps its position and keeps its
stored result unless the incoming one has a strictly higher annualized
ROI under JavaScript comparison. -/
def dedupInsert :
    List ((String × ℚ × String) × OptionAnalysisResult) →
      OptionAnalysisResult →
      List ((String × ℚ × String) × OptionAnalysisResult)
  | [], result => [(keyOf result, result)]
  | (k, stored) :: rest, result =>
    if k = keyOf result then
      if jsLtO stored.annualizedROI result.annualizedROI then
        (k, result) :: rest
      else (k, stored) :: rest
    else (k, stored) :: dedupInsert rest result

/-- The descending-annualized-ROI sort order of the optimizer output
(the subtraction comparator of the source; comparisons on NaN are
false, leaving such rows unordered there as well). -/
def annRoiDesc (a b : OptionAnalysisResult) : Prop :=
  jsLtO a.annualizedROI b.annualizedROI = false

instance : DecidableRel annRoiDesc := fun a b =>
  inferInstanceAs (Decidable (_ = _))

/-- findOptimalCallCreditSpreads: evaluate the chain at every width of
the ladder, deduplicate by key keeping the stored-or-better result, and
sort by annualized ROI descending. -/
def findOptimalCallCreditSpreads (env : JsEnv) (chain : List OptionChainLink)
    (currentPrice : ℚ) (ticker : String) (expiryGroups : List String)
    (minAnnualizedROI : ℚ) : List OptionAnalysisResult :=
  let allResults := spreadWidths.flatMap (fun spreadWidth =>
    evaluateCallCreditSpreadPerformance env chain currentPrice ticker
      expiryGroups spreadWidth minAnnualizedROI)
  let uniqueResults := allResults.foldl dedupInsert []
  List.insertionSort annRoiDesc (uniqueResults.map Prod.snd)

/-! ## Concrete fixtures used by witnesses and counterexamples -/

/-- A concrete environment: the clock one day before the epoch, a zero
timezone shift, a Date parser sending every label to the epoch, a fixed
ISO rendering, and a Math.pow stub returning 2. -/
def putEnvW : JsEnv :=
  { now := -86400000, currMonth := 1, currYear := 2025,
    tzOffset := fun _ => 0, parseDate := fun _ => some 0,
    isoDate := fun _ => "2025-02-25", qpow := fun _ _ => 2,
    mkDate := fun _ _ _ => some 0 }

/-- The expiry groups of the concrete chain. -/
def putGroupsW : List String := ["February 25, 2025 (Monthly)"]

/-- A put chain row whose terse expiry token resolves. -/
def putRowGood : OptionChainLink :=
  { strike := some "100", p_Bid := some "2", c_Bid := none, c_Ask := none,
    expiryDate := some "Feb 25",
    expirygroup := some "February 25, 2025 (Monthly)" }

/-- A put chain row whose terse expiry token has no month mapping. -/
def putRowBad : OptionChainLink :=
  { strike := some "50", p_Bid := some "1", c_Bid := none, c_Ask := none,
    expiryDate := some "Foo 1",
    expirygroup := none }

/-- The analysis result the good row evaluates to under putEnvW. -/
def putResultW : OptionAnalysisResult :=
  { ticker := "AAPL", currentPrice := 100, strikePrice := 100,
    expDateStr := "2025-02-25", expDate := some 0,
    daysToExpiration := some 1, bid := 2, percentageFromStrike := 0,
    ROI := 2, annualizedROI := some 100,
    spreadWidthPercent := none, longStrike := none }

/-- A first same-expiry result row, further from the money and with the
lower premium. -/
def cherryRow1 : OptionAnalysisResult :=
  { ticker := "A", currentPrice := 100, strikePrice := 90,
    expDateStr := "2025-02-25", expDate := some 0,
    daysToExpiration := some 10, bid := 1, percentageFromStrike := 10,
    ROI := 1, annualizedROI := some 20,
    spreadWidthPercent := none, longStrike := none }

/-- A second same-expiry result row dominating the first: closer to the
money and with the higher premium. -/
def cherryRow2 : OptionAnalysisResult :=
  { ticker := "A", currentPrice := 100, strikePrice := 95,
    expDateStr := "2025-02-25", expDate := some 0,
    daysToExpiration := some 10, bid := 2, percentageFromStrike := 5,
    ROI := 2, annualizedROI := some 25,
    spreadWidthPercent := none, longStrike := none }

/-- A call chain row with strike 103, for the nearest-above example. -/
def link103 : OptionChainLink :=
  { strike := some "103", p_Bid := none, c_Bid := some "1", c_Ask := some "2",
    expiryDate := some "Feb 25", expirygroup := none }

/-- A call chain row with strike 107, for the nearest-above example. -/
def link107 : OptionChainLink :=
  { strike := some "107", p_Bid := none, c_Bid := some "1", c_Ask := some "2",
    expiryDate := some "Feb 25", expirygroup := none }

/-- A concrete short-leg candidate: strike 100, call bid 30. -/
def spreadRowShort : OptionChainLink :=
  { strike := some "100", p_Bid := none, c_Bid := some "30", c_Ask := none,
    expiryDate := some "Feb 25", expirygroup := none }

/-- A concrete long-leg candidate: strike 220, call ask 10. -/
def spreadRowLong : OptionChainLink :=
  { strike := some "220", p_Bid := none, c_Bid := some "10", c_Ask := some "10",
    expiryDate := some "Feb 25", expirygroup := none }

/-- The spread result the concrete two-row chain produces at a given
width under putEnvW: net credit 20, max risk 100, annualized ROI 100
under the Math.pow stub. -/
def spreadResultAt (sw : ℚ) : OptionAnalysisResult :=
  { ticker := "TST", currentPrice := 100, strikePrice := 100,
    expDateStr := "Feb 25", expDate := some 0, daysToExpiration := some 1,
    bid := 20, percentageFromStrike := 0, ROI := 20,
    annualizedROI := some 100, spreadWidthPercent := some sw,
    longStrike := some 220 }

/-- A legacy result row whose expiry Date object has reference 1. -/
def legacyRow1 : LegacyAnalysisResult :=
  { ticker := "A", currentPrice := 100, strikePrice := 90,
    expDateStr := "2025-02-25", expDate := { refId := 1, time := 1740441600000 },
    bid := 1, percentageFromStrike := 10, ROI := 1 }

/-- A legacy result row with the same expiry time under a distinct Date
object (reference 2), dominating the first row. -/
def legacyRow2 : LegacyAnalysisResult :=
  { ticker := "A", currentPrice := 100, strikePrice := 95,
    expDateStr := "2025-02-25", expDate := { refId := 2, time := 1740441600000 },
    bid := 2, percentageFromStrike := 5, ROI := 2 }

/-! ## Theorems -/

/-- C9: for every configured threshold value and current price,
calculateMaxStrikePrice resolves both branches identically: whether the
threshold is below 1.0 or at least 1.0, the returned strike threshold
equals threshold times currentPrice. -/
theorem calculateMaxStrikePrice_branches_agree (threshold currentPrice : ℚ) :
    calculateMaxStrikePrice threshold currentPrice =
      maxStrikeThresholdSpec threshold currentPrice := by
  unfold calculateMaxStrikePrice maxStrikeThresholdSpec
  split <;> ring

/-- C6: daysUntil always returns an integer of at least 1, and for any
expiry date not in the future (relative to the clock of the
environment) it returns exactly 1, provided the timezone shift is the
America/New_York one (minus five hours in standard time, minus four in
daylight time). -/
theorem daysUntil_at_least_one_and_clamped :
    (∀ (env : JsEnv) (date : Int), 1 ≤ daysUntil env date) ∧
    (∀ (env : JsEnv) (date : Int),
      (∀ t, env.tzOffset t = -18000000 ∨ env.tzOffset t = -14400000) →
      date ≤ env.now → daysUntil env date = 1) := by
  constructor
  · intro env date
    exact le_max_left _ _
  · intro env date hny hpast
    unfold daysUntil
    have hq : (date : ℚ) ≤ (env.now : ℚ) := by exact_mod_cast hpast
    have hceil :
        ⌈(((date + env.tzOffset date) - (env.now + env.tzOffset env.now) : Int) : ℚ) /
          ((millisecondsInADay : Int) : ℚ)⌉ ≤ 1 := by
      rw [Int.ceil_le]
      rw [div_le_iff₀ (by norm_num [millisecondsInADay])]
      rcases hny date with h1 | h1 <;> rcases hny env.now with h2 | h2 <;>
        rw [h1, h2] <;> push_cast <;> norm_num [millisecondsInADay] <;> linarith
    simp only [millisecondsInADay] at hceil ⊢
    omega

/-- C5: the annualized-ROI formula is strictly increasing in the
single-period return (on the domain where the base of the power is
nonnegative, which is where Math.pow computes a real number) for any
fixed positive horizon, and strictly decreasing in the horizon for any
fixed positive single-period return. -/
theorem annualizedROIFormula_monotone :
    (∀ (horizon r₁ r₂ : ℝ), 0 < horizon → -1 ≤ r₁ → r₁ < r₂ →
      annualizedROIFormula r₁ horizon < annualizedROIFormula r₂ horizon) ∧
    (∀ (r horizon₁ horizon₂ : ℝ), 0 < r → 0 < horizon₁ → horizon₁ < horizon₂ →
      annualizedROIFormula r horizon₂ < annualizedROIFormula r horizon₁) := by
  constructor
  · intro t r₁ r₂ ht hr₁ hlt
    unfold annualizedROIFormula
    have hpow : (1 + r₁) ^ (365 / t) < (1 + r₂) ^ (365 / t) :=
      Real.rpow_lt_rpow (by linarith) (by linarith)
        (div_pos (by norm_num) ht)
    nlinarith [hpow]
  · intro r t₁ t₂ hr ht₁ hlt
    unfold annualizedROIFormula
    have hbase : (1 : ℝ) < 1 + r := by linarith
    have hexp : 365 / t₂ < 365 / t₁ :=
      div_lt_div_of_pos_left (by norm_num) ht₁ hlt
    have hpow : (1 + r) ^ (365 / t₂) < (1 + r) ^ (365 / t₁) :=
      (Real.rpow_lt_rpow_left_iff hbase).mpr hexp
    nlinarith [hpow]

/-- Witness for C6 at a concrete environment: a date one day in the
past with the standard-time New York shift yields exactly 1, and the
lower bound holds there as well. -/
theorem daysUntil_at_least_one_and_clamped_witness :
    1 ≤ daysUntil
      { now := 0, currMonth := 1, currYear := 2025,
        tzOffset := fun _ => -18000000, parseDate := fun _ => none,
        isoDate := fun _ => "", qpow := fun _ _ => 0,
        mkDate := fun _ _ _ => none } (-86400000) ∧
    daysUntil
      { now := 0, currMonth := 1, currYear := 2025,
        tzOffset := fun _ => -18000000, parseDate := fun _ => none,
        isoDate := fun _ => "", qpow := fun _ _ => 0,
        mkDate := fun _ _ _ => none } (-86400000) = 1 :=
  ⟨daysUntil_at_least_one_and_clamped.1 _ _,
   daysUntil_at_least_one_and_clamped.2 _ _ (fun _ => Or.inl rfl)
     (by norm_num)⟩

/-- Every row of the per-group cherry scan sits at an index of at
least 1 of its group and dominates its immediate predecessor. -/
theorem mem_cherriesOfGroup :
    ∀ (g : List OptionAnalysisResult) (r : OptionAnalysisResult),
      r ∈ cherriesOfGroup g →
      ∃ i prev, 1 ≤ i ∧ g[i]? = some r ∧ g[i - 1]? = some prev ∧
        cherryDominates prev r = true
  | [], r, h => by simp [cherriesOfGroup] at h
  | [_], r, h => by simp [cherriesOfGroup] at h
  | a :: b :: t, r, h => by
    simp only [cherriesOfGroup, List.mem_append] at h
    rcases h with h | h
    · by_cases hd : cherryDominates a b = true
      · rw [if_pos hd] at h
        simp only [List.mem_singleton] at h
        subst h
        exact ⟨1, a, le_refl 1, by simp, by simp, hd⟩
      · rw [if_neg hd] at h
        simp at h
    · obtain ⟨i, prev, h1, h2, h3, h4⟩ := mem_cherriesOfGroup (b :: t) r h
      obtain ⟨j, rfl⟩ : ∃ j, i = j + 1 := ⟨i - 1, by omega⟩
      refine ⟨j + 2, prev, by omega, ?_, ?_, h4⟩
      · simpa using h2
      · have hj : j + 2 - 1 = (j + 1 - 1) + 1 := by omega
        rw [hj]
        simpa using h3

/-- Every run the grouping scan produces is keyed: all its rows share
one expiry-date string. -/
theorem groupRunsAux_keyed :
    ∀ (rest : List OptionAnalysisResult) (key : String)
      (cur : List OptionAnalysisResult),
      (∀ x ∈ cur, x.expDateStr = key) →
      ∀ g ∈ groupRunsAux key cur rest, ∃ k, ∀ x ∈ g, x.expDateStr = k
  | [], key, cur, hcur => by
    intro g hg
    simp only [groupRunsAux, List.mem_singleton] at hg
    subst hg
    exact ⟨key, by simpa using hcur⟩
  | a :: t, key, cur, hcur => by
    intro g hg
    simp only [groupRunsAux] at hg
    by_cases ha : a.expDateStr = key
    · rw [if_pos ha] at hg
      refine groupRunsAux_keyed t key (a :: cur) ?_ g hg
      intro x hx
      rcases List.mem_cons.mp hx with hx | hx
      · subst hx; exact ha
      · exact hcur x hx
    · rw [if_neg ha] at hg
      rcases List.mem_cons.mp hg with hg | hg
      · subst hg
        exact ⟨key, by simpa using hcur⟩
      · exact groupRunsAux_keyed t a.expDateStr [a] (by simp) g hg

/-- Every group of groupRuns is keyed by a single expiry-date string. -/
theorem groupRuns_keyed (l : List OptionAnalysisResult)
    (g : List OptionAnalysisResult) (hg : g ∈ groupRuns l) :
    ∃ k, ∀ x ∈ g, x.expDateStr = k := by
  cases l with
  | nil => simp [groupRuns] at hg
  | cons a t => exact groupRunsAux_keyed t a.expDateStr [a] (by simp) g hg

/-- C7: every row the grouped cherry filter returns sits at an index of
at least 1 of a same-expiry group of the sorted input (so the first row
of a group is never flagged) and has a strictly smaller absolute
percentage from strike and a strictly greater bid than its immediate
in-group predecessor. -/
theorem filterCherries_grouped_sound (l : List OptionAnalysisResult)
    (r : OptionAnalysisResult) (hr : r ∈ filterCherries l) :
    ∃ g i prev,
      g ∈ groupRuns (List.insertionSort cherrySortRel l) ∧ 1 ≤ i ∧
      g[i]? = some r ∧ g[i - 1]? = some prev ∧
      prev.expDateStr = r.expDateStr ∧
      |r.percentageFromStrike| < |prev.percentageFromStrike| ∧
      prev.bid < r.bid := by
  unfold filterCherries at hr
  obtain ⟨g, hgmem, hrg⟩ := List.mem_flatMap.mp hr
  obtain ⟨i, prev, h1, h2, h3, h4⟩ := mem_cherriesOfGroup g r hrg
  obtain ⟨k, hk⟩ := groupRuns_keyed _ g hgmem
  have hrmem : r ∈ g := by
    obtain ⟨hlt, he⟩ := List.getElem?_eq_some.mp h2
    exact he ▸ List.getElem_mem hlt
  have hpmem : prev ∈ g := by
    obtain ⟨hlt, he⟩ := List.getElem?_eq_some.mp h3
    exact he ▸ List.getElem_mem hlt
  have hdom := h4
  unfold cherryDominates at hdom
  rw [Bool.and_eq_true, decide_eq_true_iff, decide_eq_true_iff] at hdom
  exact ⟨g, i, prev, hgmem, h1, h2, h3,
    (hk prev hpmem).trans (hk r hrmem).symm, hdom.1, hdom.2⟩

/-- Witness for C7: on a concrete two-row same-expiry list the second
row is flagged, and the theorem locates it at index 1 of its group
behind its dominated predecessor. -/
theorem filterCherries_grouped_sound_witness :
    ∃ g i prev,
      g ∈ groupRuns (List.insertionSort cherrySortRel [cherryRow1, cherryRow2]) ∧
      1 ≤ i ∧ g[i]? = some cherryRow2 ∧ g[i - 1]? = some prev ∧
      prev.expDateStr = cherryRow2.expDateStr ∧
      |cherryRow2.percentageFromStrike| < |prev.percentageFromStrike| ∧
      prev.bid < cherryRow2.bid :=
  filterCherries_grouped_sound [cherryRow1, cherryRow2] cherryRow2 (by decide)

/-- C8 fails on the code: the sequential cherry filter compares the
expDate fields of adjacent rows with strict equality, which on Date
objects is reference equality, so two rows resolving to the same expiry
instant under distinct Date objects are never matched; on this input
the claim expects the dominating second row to be returned, yet the
filter returns the empty list. -/
theorem filterCherriesSeq_reference_equality_bug :
    filterCherriesSeq [legacyRow1, legacyRow2] = [] ∧
    legacyRow1.expDate.time = legacyRow2.expDate.time ∧
    legacyRow1.expDateStr = legacyRow2.expDateStr ∧
    |legacyRow2.percentageFromStrike| < |legacyRow1.percentageFromStrike| ∧
    legacyRow1.bid < legacyRow2.bid := by
  refine ⟨by decide, rfl, rfl, by decide, by decide⟩

/-- C2: every result the put evaluator returns (when it returns at all)
carries an annualized ROI of at least the hard 15-percent cutoff; rows
below the cutoff appear nowhere in the output. -/
theorem evaluatePut_respects_min_roi (env : JsEnv)
    (chain : List OptionChainLink) (currentPrice : ℚ) (ticker : String)
    (expiryGroups : List String) (out : List OptionAnalysisResult)
    (hok : evaluatePutOptionsPerformance env chain currentPrice ticker
      expiryGroups = .ok out) :
    ∀ r ∈ out, ∃ a, r.annualizedROI = some a ∧ 15 ≤ a := by
  intro r hr
  unfold evaluatePutOptionsPerformance at hok
  cases hmap : mapExcept (evaluatePutRow env currentPrice ticker expiryGroups)
      chain with
  | error e =>
    rw [hmap] at hok
    simp [Bind.bind, Except.bind] at hok
  | ok results =>
    rw [hmap] at hok
    simp only [Bind.bind, Except.bind, pure, Except.pure, Except.ok.injEq] at hok
    subst hok
    have hfilter := List.of_mem_filter hr
    cases hann : r.annualizedROI with
    | none => rw [hann] at hfilter; simp [jsGeQ] at hfilter
    | some a =>
      rw [hann] at hfilter
      simp only [jsGeQ, decide_eq_true_eq] at hfilter
      exact ⟨a, rfl, hfilter⟩

/-- Concrete evaluation of the good row. -/
theorem evaluatePutRow_good_eq :
    evaluatePutRow putEnvW 100 "AAPL" putGroupsW putRowGood =
      .ok putResultW := by
  have hfind : findExpiryGroupStartingWith "Feb 25" putGroupsW =
      some "February 25, 2025 (Monthly)" := by decide
  unfold evaluatePutRow
  simp [putRowGood, hfind, putEnvW, daysUntil, millisecondsInADay,
    safeParseFloat, jsParseFloat, stripCommas, digitsVal,
    calculatePercentageChange, putResultW, Bind.bind, Except.bind, pure,
    Except.pure]
  norm_num

/-- Concrete evaluation of the bad row: the unresolvable token gives an
Invalid Date whose toISOString throws. -/
theorem evaluatePutRow_bad_eq :
    evaluatePutRow putEnvW 100 "AAPL" putGroupsW putRowBad =
      .error "RangeError: Invalid time value" := by
  have hfind : findExpiryGroupStartingWith "Foo 1" putGroupsW = none := by
    decide
  unfold evaluatePutRow
  simp [putRowBad, hfind, Bind.bind, Except.bind, pure, Except.pure]

/-- Concrete evaluation of the single-row good chain. -/
theorem evaluatePut_good_eq :
    evaluatePutOptionsPerformance putEnvW [putRowGood] 100 "AAPL" putGroupsW =
      .ok [putResultW] := by
  unfold evaluatePutOptionsPerformance
  simp [mapExcept, evaluatePutRow_good_eq, Bind.bind, Except.bind, pure,
    Except.pure, jsGeQ, putResultW]
  norm_num

/-- C3 fails on the code: a chain row whose terse expiry token has no
month mapping is not merely excluded; the RangeError thrown by
toISOString on the Invalid Date aborts the whole evaluation, losing the
resolvable rows as well (the same chain without the bad row evaluates
to a nonempty result list). -/
theorem evaluatePut_throws_on_unresolvable_token :
    evaluatePutOptionsPerformance putEnvW [putRowGood, putRowBad] 100 "AAPL"
      putGroupsW = .error "RangeError: Invalid time value" ∧
    evaluatePutOptionsPerformance putEnvW [putRowGood] 100 "AAPL" putGroupsW =
      .ok [putResultW] := by
  constructor
  · unfold evaluatePutOptionsPerformance
    simp [mapExcept, evaluatePutRow_good_eq, evaluatePutRow_bad_eq, Bind.bind,
      Except.bind]
  · exact evaluatePut_good_eq

/-- Witness for C2: on the concrete single-row chain the evaluator
returns a nonempty list and every returned row reaches the cutoff. -/
theorem evaluatePut_respects_min_roi_witness :
    evaluatePutOptionsPerformance putEnvW [putRowGood] 100 "AAPL" putGroupsW =
      .ok [putResultW] ∧
    ∀ r ∈ [putResultW], ∃ a, r.annualizedROI = some a ∧ 15 ≤ a :=
  ⟨evaluatePut_good_eq,
   evaluatePut_respects_min_roi putEnvW [putRowGood] 100 "AAPL" putGroupsW
     [putResultW] evaluatePut_good_eq⟩

/-- JavaScript comparison under the NaN model never relates a value to
itself. -/
theorem jsLtO_irrefl (x : Option ℚ) : jsLtO x x = false := by
  cases x <;> simp [jsLtO]

/-- When a stored value loses to an incoming one but not to an old one,
the incoming value does not lose to the old one either. -/
theorem jsLtO_chain {a b c : Option ℚ} (h1 : jsLtO a b = true)
    (h2 : jsLtO a c = false) : jsLtO b c = false := by
  cases a with
  | none => simp [jsLtO] at h1
  | some x =>
    cases b with
    | none => simp [jsLtO] at h1
    | some y =>
      cases c with
      | none => simp [jsLtO]
      | some z =>
        simp only [jsLtO, decide_eq_true_eq, decide_eq_false_iff_not] at *
        intro hzy
        exact h2 (by linarith)

/-- Anatomy of a successful short-candidate evaluation: the stored bid
is the positive net credit, the stored long strike exceeds the short
strike by more than the net credit (positive max risk), the identifying
fields are the arguments, and the long leg is the one the forward scan
selects, priced by longAskPrice. -/
theorem evalOneShort_eq_some
    {env : JsEnv} {currentPrice : ℚ} {ticker expDateStr : String}
    {sw minROI : ℚ} {shortOption : OptionChainLink}
    {laterOptions : List OptionChainLink} {result : OptionAnalysisResult}
    (h : evalOneShort env currentPrice ticker expDateStr sw minROI
      shortOption laterOptions = some result) :
    0 < result.bid ∧
    (∃ L, result.longStrike = some L ∧
      0 < L - result.strikePrice - result.bid) ∧
    result.ticker = ticker ∧
    result.expDateStr = expDateStr ∧
    result.spreadWidthPercent = some sw ∧
    ∃ lo, findLongOption laterOptions (parsedStrike shortOption * (1 + sw)) =
        some lo ∧
      result.longStrike = some (parsedStrike lo) ∧
      result.strikePrice = parsedStrike shortOption ∧
      result.bid = parsedCallBid shortOption - longAskPrice lo := by
  simp only [evalOneShort] at h
  split at h
  · exact absurd h (by simp)
  split at h
  · exact absurd h (by simp)
  next lo hfind =>
    split at h
    · exact absurd h (by simp)
    next hask =>
      split at h
      · exact absurd h (by simp)
      next hnc =>
        split at h
        · exact absurd h (by simp)
        next hmr =>
          split at h
          · exact absurd h (by simp)
          next hroi =>
            rw [Option.some.injEq] at h
            subst h
            refine ⟨by simpa using lt_of_not_le hnc, ⟨parsedStrike lo, rfl, ?_⟩,
              rfl, rfl, rfl, lo, hfind, rfl, rfl, rfl⟩
            simpa using lt_of_not_le hmr

/-- Every row the short-strike loop emits comes from some successful
short-candidate evaluation. -/
theorem mem_evalShorts {env : JsEnv} {currentPrice : ℚ}
    {ticker expDateStr : String} {sw minROI : ℚ} :
    ∀ {l : List OptionChainLink} {result : OptionAnalysisResult},
      result ∈ evalShorts env currentPrice ticker expDateStr sw minROI l →
      ∃ shortOption laterOptions,
        evalOneShort env currentPrice ticker expDateStr sw minROI shortOption
          laterOptions = some result
  | [], result, h => by simp [evalShorts] at h
  | [_], result, h => by simp [evalShorts] at h
  | a :: b :: t, result, h => by
    simp only [evalShorts, List.mem_append] at h
    rcases h with h | h
    · rw [Option.mem_toList, Option.mem_def] at h
      exact ⟨a, b :: t, h⟩
    · exact mem_evalShorts h

/-- Every row the spread evaluator emits comes from some successful
short-candidate evaluation in some expiry group. -/
theorem mem_evaluateCallCreditSpread {env : JsEnv}
    {chain : List OptionChainLink} {currentPrice : ℚ} {ticker : String}
    {expiryGroups : List String} {sw minROI : ℚ}
    {result : OptionAnalysisResult}
    (h : result ∈ evaluateCallCreditSpreadPerformance env chain currentPrice
      ticker expiryGroups sw minROI) :
    ∃ shortOption laterOptions expDateStr,
      evalOneShort env currentPrice ticker expDateStr sw minROI shortOption
        laterOptions = some result := by
  unfold evaluateCallCreditSpreadPerformance at h
  obtain ⟨entry, hentry, hres⟩ := List.mem_flatMap.mp h
  obtain ⟨so, later, he⟩ := mem_evalShorts hres
  exact ⟨so, later, entry.1, he⟩

/-- C10: every result of the credit-spread evaluator has its long
strike strictly above its short strike: the positive net credit and
positive max risk guards force the gap. -/
theorem evalSpread_long_above_short (env : JsEnv)
    (chain : List OptionChainLink) (currentPrice : ℚ) (ticker : String)
    (expiryGroups : List String) (sw minROI : ℚ) :
    ∀ r ∈ evaluateCallCreditSpreadPerformance env chain currentPrice ticker
      expiryGroups sw minROI,
      ∃ L, r.longStrike = some L ∧ r.strikePrice < L := by
  intro r hr
  obtain ⟨so, later, eds, he⟩ := mem_evaluateCallCreditSpread hr
  obtain ⟨hbid, ⟨L, hL, hrisk⟩, -⟩ := evalOneShort_eq_some he
  exact ⟨L, hL, by linarith⟩

/-- C4: the long leg is the first listed strike at or above the target
(scanning forward from the short leg), every skipped strike being below
the target; its price is the quoted ask when present and positive, else
1.1 times its bid; the claimed example selects 107 for a target of 105;
and a successful candidate evaluation records exactly that selection. -/
theorem longLeg_nearest_above_selection :
    (∀ (laterOptions : List OptionChainLink) (target : ℚ)
       (lo : OptionChainLink),
       findLongOption laterOptions target = some lo →
       target ≤ parsedStrike lo ∧
       ∃ pre post, laterOptions = pre ++ lo :: post ∧
         ∀ row ∈ pre, parsedStrike row < target) ∧
    (∀ lo : OptionChainLink, 0 ≤ parsedCallAsk lo →
       longAskPrice lo =
         if 0 < parsedCallAsk lo then parsedCallAsk lo
         else parsedCallBid lo * (11 / 10)) ∧
    (findLongOption [link103, link107] (100 * (1 + 5 / 100)) = some link107) ∧
    (∀ (env : JsEnv) (currentPrice : ℚ) (ticker expDateStr : String)
       (sw minROI : ℚ) (shortOption : OptionChainLink)
       (laterOptions : List OptionChainLink) (result : OptionAnalysisResult),
       evalOneShort env currentPrice ticker expDateStr sw minROI shortOption
         laterOptions = some result →
       ∃ lo, findLongOption laterOptions
           (parsedStrike shortOption * (1 + sw)) = some lo ∧
         result.longStrike = some (parsedStrike lo) ∧
         result.bid = parsedCallBid shortOption - longAskPrice lo) := by
  refine ⟨?_, ?_, ?_, ?_⟩
  · intro laterOptions target lo hfind
    unfold findLongOption at hfind
    obtain ⟨hp, pre, post, heq, hpre⟩ := List.find?_eq_some.mp hfind
    refine ⟨by simpa using hp, pre, post, heq, ?_⟩
    intro row hrow
    have := hpre row hrow
    simp only [Bool.not_eq_true', decide_eq_false_iff_not, not_le] at this
    exact this
  · intro lo hask
    by_cases hz : parsedCallAsk lo = 0
    · simp [longAskPrice, hz]
    · have hlt : 0 < parsedCallAsk lo := lt_of_le_of_ne hask (Ne.symm hz)
      simp [longAskPrice, hz, hlt]
  · simp [findLongOption, link103, link107, parsedStrike, safeParseFloat,
      jsOrS, jsParseFloat, stripCommas, digitsVal]
    norm_num
  · intro env currentPrice ticker expDateStr sw minROI shortOption
      laterOptions result h
    obtain ⟨-, -, -, -, -, lo, hfind, hlong, -, hbid⟩ :=
      evalOneShort_eq_some h
    exact ⟨lo, hfind, hlong, hbid⟩

/-- Everything the Map update stores was already stored or is the
incoming result under its key. -/
theorem mem_dedupInsert :
    ∀ {acc : List ((String × ℚ × String) × OptionAnalysisResult)}
      {r : OptionAnalysisResult}
      {p : (String × ℚ × String) × OptionAnalysisResult},
      p ∈ dedupInsert acc r → p ∈ acc ∨ p = (keyOf r, r)
  | [], r, p, h => by
    simp only [dedupInsert, List.mem_singleton] at h
    exact Or.inr h
  | (k, stored) :: rest, r, p, h => by
    simp only [dedupInsert] at h
    by_cases hk : k = keyOf r
    · rw [if_pos hk] at h
      by_cases hlt : jsLtO stored.annualizedROI r.annualizedROI = true
      · rw [if_pos hlt] at h
        rcases List.mem_cons.mp h with h | h
        · exact Or.inr (by rw [h, hk])
        · exact Or.inl (List.mem_cons_of_mem _ h)
      · rw [if_neg hlt] at h
        exact Or.inl h
    · rw [if_neg hk] at h
      rcases List.mem_cons.mp h with h | h
      · exact Or.inl (h ▸ List.mem_cons_self _ _)
      · rcases mem_dedupInsert h with h2 | h2
        · exact Or.inl (List.mem_cons_of_mem _ h2)
        · exact Or.inr h2

/-- The Map update keeps the key list, appending the incoming key only
when it is new. -/
theorem keys_dedupInsert :
    ∀ (acc : List ((String × ℚ × String) × OptionAnalysisResult))
      (r : OptionAnalysisResult),
      (dedupInsert acc r).map Prod.fst =
        if keyOf r ∈ acc.map Prod.fst then acc.map Prod.fst
        else acc.map Prod.fst ++ [keyOf r]
  | [], r => by simp [dedupInsert]
  | (k, stored) :: rest, r => by
    simp only [dedupInsert]
    by_cases hk : k = keyOf r
    · subst hk
      rw [if_pos rfl]
      split <;> simp
    · rw [if_neg hk]
      by_cases hmem : keyOf r ∈ rest.map Prod.fst
      · have hcond : keyOf r ∈ ((k, stored) :: rest).map Prod.fst := by
          simp [hmem]
        rw [if_pos hcond]
        simp [keys_dedupInsert rest r, hmem]
      · have hcond : keyOf r ∉ ((k, stored) :: rest).map Prod.fst := by
          simp only [List.map_cons, List.mem_cons]
          push_neg
          exact ⟨fun he => hk he.symm, hmem⟩
        rw [if_neg hcond]
        simp [keys_dedupInsert rest r, hmem]

/-- The Map update keeps every stored pair keyed by its value. -/
theorem keyed_dedupInsert :
    ∀ {acc : List ((String × ℚ × String) × OptionAnalysisResult)}
      {r : OptionAnalysisResult},
      (∀ q ∈ acc, q.1 = keyOf q.2) →
      ∀ q ∈ dedupInsert acc r, q.1 = keyOf q.2 := by
  intro acc r hkeyed q hq
  rcases mem_dedupInsert hq with h | h
  · exact hkeyed q h
  · rw [h]

/-- After the Map update, whatever sits under the key of the incoming
result either does not lose to it or is the incoming result itself. -/
theorem guard_dedupInsert :
    ∀ {acc : List ((String × ℚ × String) × OptionAnalysisResult)}
      {r : OptionAnalysisResult}
      {p : (String × ℚ × String) × OptionAnalysisResult},
      (acc.map Prod.fst).Nodup →
      p ∈ dedupInsert acc r → p.1 = keyOf r →
      jsLtO p.2.annualizedROI r.annualizedROI = false ∨ p.2 = r
  | [], r, p, _, h, _ => by
    simp only [dedupInsert, List.mem_singleton] at h
    exact Or.inr (by rw [h])
  | (k, stored) :: rest, r, p, hnodup, h, hpk => by
    simp only [dedupInsert] at h
    rw [List.map_cons, List.nodup_cons] at hnodup
    have hrestkey : ∀ q ∈ rest, q.1 = k → False := by
      intro q hq hqk
      have hmemk : q.1 ∈ rest.map Prod.fst := List.mem_map_of_mem Prod.fst hq
      rw [hqk] at hmemk
      exact hnodup.1 hmemk
    by_cases hk : k = keyOf r
    · rw [if_pos hk] at h
      by_cases hlt : jsLtO stored.annualizedROI r.annualizedROI = true
      · rw [if_pos hlt] at h
        rcases List.mem_cons.mp h with h | h
        · exact Or.inr (by rw [h])
        · exact absurd (hpk.trans hk.symm) (fun he => hrestkey p h he)
      · rw [if_neg hlt] at h
        rcases List.mem_cons.mp h with h | h
        · exact Or.inl (by rw [h]; simpa using hlt)
        · exact absurd (hpk.trans hk.symm) (fun he => hrestkey p h he)
    · rw [if_neg hk] at h
      rcases List.mem_cons.mp h with h | h
      · refine absurd ?_ hk
        rw [h] at hpk
        exact hpk
      · exact guard_dedupInsert hnodup.2 h hpk

/-- When the Map update stores the incoming result, either its key was
new or it beat (or equalled) the previously stored value. -/
theorem newval_dedupInsert :
    ∀ {acc : List ((String × ℚ × String) × OptionAnalysisResult)}
      {r : OptionAnalysisResult}
      {p : (String × ℚ × String) × OptionAnalysisResult},
      (acc.map Prod.fst).Nodup →
      p ∈ dedupInsert acc r → p.1 = keyOf r → p.2 = r →
      keyOf r ∉ acc.map Prod.fst ∨
        ∃ stored, (keyOf r, stored) ∈ acc ∧
          (jsLtO stored.annualizedROI r.annualizedROI = true ∨ stored = r)
  | [], r, p, _, _, _, _ => Or.inl (by simp)
  | (k, stored) :: rest, r, p, hnodup, h, hpk, hpv => by
    simp only [dedupInsert] at h
    rw [List.map_cons, List.nodup_cons] at hnodup
    have hrestkey : ∀ q ∈ rest, q.1 = k → False := by
      intro q hq hqk
      have hmemk : q.1 ∈ rest.map Prod.fst := List.mem_map_of_mem Prod.fst hq
      rw [hqk] at hmemk
      exact hnodup.1 hmemk
    by_cases hk : k = keyOf r
    · refine Or.inr ⟨stored, hk ▸ List.mem_cons_self _ _, ?_⟩
      rw [if_pos hk] at h
      by_cases hlt : jsLtO stored.annualizedROI r.annualizedROI = true
      · exact Or.inl hlt
      · rw [if_neg hlt] at h
        rcases List.mem_cons.mp h with h | h
        · exact Or.inr (by rw [← hpv, h])
        · exact absurd (hpk.trans hk.symm) (fun he => hrestkey p h he)
    · rw [if_neg hk] at h
      rcases List.mem_cons.mp h with h | h
      · refine absurd ?_ hk
        rw [h] at hpk
        exact hpk
      · rcases newval_dedupInsert hnodup.2 h hpk hpv with
          hnew | ⟨s, hs, hbeat⟩
        · refine Or.inl ?_
          simp only [List.map_cons, List.mem_cons]
          push_neg
          exact ⟨fun he => hk he.symm, hnew⟩
        · exact Or.inr ⟨s, List.mem_cons_of_mem _ hs, hbeat⟩

/-- The running invariant of the deduplicating fold: stored pairs come
from the processed rows, carry their own key, have pairwise distinct
keys, and no processed row with the key of a stored pair strictly beats
it under JavaScript comparison. -/
theorem foldl_dedup_inv :
    ∀ (todo processed : List OptionAnalysisResult)
      (acc : List ((String × ℚ × String) × OptionAnalysisResult)),
      (∀ p ∈ acc, p.2 ∈ processed) →
      (∀ p ∈ acc, p.1 = keyOf p.2) →
      (acc.map Prod.fst).Nodup →
      (∀ s ∈ processed, keyOf s ∈ acc.map Prod.fst) →
      (∀ p ∈ acc, ∀ s ∈ processed, keyOf s = p.1 →
        jsLtO p.2.annualizedROI s.annualizedROI = false) →
      (∀ p ∈ todo.foldl dedupInsert acc, p.2 ∈ processed ++ todo) ∧
      (∀ p ∈ todo.foldl dedupInsert acc, p.1 = keyOf p.2) ∧
      ((todo.foldl dedupInsert acc).map Prod.fst).Nodup ∧
      (∀ p ∈ todo.foldl dedupInsert acc, ∀ s ∈ processed ++ todo,
        keyOf s = p.1 → jsLtO p.2.annualizedROI s.annualizedROI = false)
  | [], processed, acc, h1, h2, h3, _, h5 => by
    simp only [List.foldl_nil, List.append_nil]
    exact ⟨h1, h2, h3, h5⟩
  | r :: todo, processed, acc, h1, h2, h3, h4, h5 => by
    simp only [List.foldl_cons]
    have g1 : ∀ p ∈ dedupInsert acc r, p.2 ∈ processed ++ [r] := by
      intro p hp
      rcases mem_dedupInsert hp with h | h
      · exact List.mem_append_left _ (h1 p h)
      · rw [h]
        exact List.mem_append_right _ (List.mem_singleton_self _)
    have g2 : ∀ p ∈ dedupInsert acc r, p.1 = keyOf p.2 :=
      keyed_dedupInsert h2
    have g3 : ((dedupInsert acc r).map Prod.fst).Nodup := by
      rw [keys_dedupInsert]
      split
      · exact h3
      next hnot =>
        rw [List.nodup_append]
        exact ⟨h3, List.nodup_singleton _, by
          intro k hk hk1
          rw [List.mem_singleton.mp hk1] at hk
          exact hnot hk⟩
    have g4 : ∀ s ∈ processed ++ [r],
        keyOf s ∈ (dedupInsert acc r).map Prod.fst := by
      intro s hs
      rw [keys_dedupInsert]
      rcases List.mem_append.mp hs with hs | hs
      · have hsk := h4 s hs
        split
        · exact hsk
        · exact List.mem_append_left _ hsk
      · rw [List.mem_singleton.mp hs]
        split
        next hmem => exact hmem
        next => exact List.mem_append_right _ (List.mem_singleton_self _)
    have g5 : ∀ p ∈ dedupInsert acc r, ∀ s ∈ processed ++ [r],
        keyOf s = p.1 → jsLtO p.2.annualizedROI s.annualizedROI = false := by
      intro p hp s hs hks
      rcases List.mem_append.mp hs with hs | hs
      · rcases mem_dedupInsert hp with hold | hnew
        · exact h5 p hold s hs hks
        · have hpk : p.1 = keyOf r := by rw [hnew]
          have hpv : p.2 = r := by rw [hnew]
          rcases newval_dedupInsert h3 hp hpk hpv with
            hnewkey | ⟨stored, hstored, hbeat⟩
          · exact absurd (by rw [← hpk, ← hks]; exact h4 s hs :
              keyOf r ∈ acc.map Prod.fst) hnewkey
          · have hold5 := h5 (keyOf r, stored) hstored s hs
              (hks.trans hpk)
            rcases hbeat with hlt | heq
            · rw [hpv]
              exact jsLtO_chain hlt hold5
            · rw [hpv, ← heq]
              exact hold5
      · rw [List.mem_singleton.mp hs] at hks ⊢
        rcases guard_dedupInsert h3 hp hks.symm with hng | hpr
        · exact hng
        · rw [hpr]
          exact jsLtO_irrefl _
    have ih := foldl_dedup_inv todo (processed ++ [r]) (dedupInsert acc r)
      g1 g2 g3 g4 g5
    simpa [List.append_assoc] using ih

/-- C1: over every chain, price, threshold and the fixed width ladder,
the optimizer emits no result with a non-positive net credit (the bid
field) or a non-positive max risk, at most one result per
(ticker, strikePrice, expDateStr) key, and for each emitted result no
same-key candidate of any ladder width has a strictly higher annualized
ROI. -/
theorem findOptimal_positive_and_unique (env : JsEnv)
    (chain : List OptionChainLink) (currentPrice : ℚ) (ticker : String)
    (expiryGroups : List String) (minAnnualizedROI : ℚ) :
    (∀ r ∈ findOptimalCallCreditSpreads env chain currentPrice ticker
        expiryGroups minAnnualizedROI,
      0 < r.bid ∧ ∃ L, r.longStrike = some L ∧
        0 < L - r.strikePrice - r.bid) ∧
    (findOptimalCallCreditSpreads env chain currentPrice ticker expiryGroups
        minAnnualizedROI).Pairwise (fun a b => keyOf a ≠ keyOf b) ∧
    (∀ r ∈ findOptimalCallCreditSpreads env chain currentPrice ticker
        expiryGroups minAnnualizedROI,
      ∀ sw ∈ spreadWidths,
      ∀ s ∈ evaluateCallCreditSpreadPerformance env chain currentPrice ticker
          expiryGroups sw minAnnualizedROI,
        keyOf s = keyOf r →
        ∀ x y, s.annualizedROI = some x → r.annualizedROI = some y →
          x ≤ y) := by
  have hfold := foldl_dedup_inv
    (spreadWidths.flatMap (fun spreadWidth =>
      evaluateCallCreditSpreadPerformance env chain currentPrice ticker
        expiryGroups spreadWidth minAnnualizedROI)) [] []
    (by simp) (by simp) (by simp) (by simp) (by simp)
  obtain ⟨f1, f2, f3, f4⟩ := hfold
  rw [List.nil_append] at f1 f4
  have hperm := List.perm_insertionSort annRoiDesc
    (((spreadWidths.flatMap (fun spreadWidth =>
      evaluateCallCreditSpreadPerformance env chain currentPrice ticker
        expiryGroups spreadWidth minAnnualizedROI)).foldl dedupInsert
          []).map Prod.snd)
  have hmem_out : ∀ r, r ∈ findOptimalCallCreditSpreads env chain
      currentPrice ticker expiryGroups minAnnualizedROI ↔
      r ∈ ((spreadWidths.flatMap (fun spreadWidth =>
        evaluateCallCreditSpreadPerformance env chain currentPrice ticker
          expiryGroups spreadWidth minAnnualizedROI)).foldl dedupInsert
            []).map Prod.snd := by
    intro r
    unfold findOptimalCallCreditSpreads
    exact hperm.mem_iff
  refine ⟨?_, ?_, ?_⟩
  · intro r hr
    obtain ⟨p, hpA, hpr⟩ := List.mem_map.mp ((hmem_out r).mp hr)
    have hall := f1 p hpA
    obtain ⟨sw, hsw, hmem⟩ := List.mem_flatMap.mp hall
    obtain ⟨so, later, eds, he⟩ := mem_evaluateCallCreditSpread hmem
    obtain ⟨hbid, hrisk, -⟩ := evalOneShort_eq_some he
    rw [hpr] at hbid hrisk
    exact ⟨hbid, hrisk⟩
  · have hkeys : (((spreadWidths.flatMap (fun spreadWidth =>
        evaluateCallCreditSpreadPerformance env chain currentPrice ticker
          expiryGroups spreadWidth minAnnualizedROI)).foldl dedupInsert
            []).map Prod.fst) =
        (((spreadWidths.flatMap (fun spreadWidth =>
          evaluateCallCreditSpreadPerformance env chain currentPrice ticker
            expiryGroups spreadWidth minAnnualizedROI)).foldl dedupInsert
              []).map Prod.snd).map keyOf := by
      rw [List.map_map]
      exact List.map_congr_left f2
    have hnodupvals := f3
    rw [hkeys] at hnodupvals
    have hpair : (((spreadWidths.flatMap (fun spreadWidth =>
        evaluateCallCreditSpreadPerformance env chain currentPrice ticker
          expiryGroups spreadWidth minAnnualizedROI)).foldl dedupInsert
            []).map Prod.snd).Pairwise (fun a b => keyOf a ≠ keyOf b) := by
      exact List.pairwise_map.mp hnodupvals
    unfold findOptimalCallCreditSpreads
    exact (hperm.pairwise_iff (fun h => h.symm)).mpr hpair
  · intro r hr sw hsw s hs hkey x y hsx hry
    obtain ⟨p, hpA, hpr⟩ := List.mem_map.mp ((hmem_out r).mp hr)
    have hsall : s ∈ spreadWidths.flatMap (fun spreadWidth =>
        evaluateCallCreditSpreadPerformance env chain currentPrice ticker
          expiryGroups spreadWidth minAnnualizedROI) :=
      List.mem_flatMap.mpr ⟨sw, hsw, hs⟩
    have hp1 : p.1 = keyOf r := by rw [f2 p hpA, hpr]
    have hguard := f4 p hpA s hsall (hkey.trans hp1.symm)
    rw [hpr, hry, hsx] at hguard
    simp only [jsLtO, decide_eq_false_iff_not, not_lt] at hguard
    exact hguard

/-- Concrete evaluation of the two-row call chain at every ladder
width: the single candidate spread survives, with net credit 20, max
risk 100 and annualized ROI 100 under the Math.pow stub. -/
theorem evalSpread_concrete :
    ∀ sw ∈ spreadWidths,
      evaluateCallCreditSpreadPerformance putEnvW
        [spreadRowShort, spreadRowLong] 100 "TST" [] sw 15 =
        [spreadResultAt sw] := by
  have hs1 : parsedStrike spreadRowShort = 100 := by
    simp [parsedStrike, spreadRowShort, jsOrS, safeParseFloat, jsParseFloat,
      stripCommas, digitsVal]
  have hs2 : parsedStrike spreadRowLong = 220 := by
    simp [parsedStrike, spreadRowLong, jsOrS, safeParseFloat, jsParseFloat,
      stripCommas, digitsVal]
  have hb1 : parsedCallBid spreadRowShort = 30 := by
    simp [parsedCallBid, spreadRowShort, jsOrS, safeParseFloat, jsParseFloat,
      stripCommas, digitsVal]
  have hb2 : parsedCallBid spreadRowLong = 10 := by
    simp [parsedCallBid, spreadRowLong, jsOrS, safeParseFloat, jsParseFloat,
      stripCommas, digitsVal]
  have ha2 : parsedCallAsk spreadRowLong = 10 := by
    simp [parsedCallAsk, spreadRowLong, jsOrS, safeParseFloat, jsParseFloat,
      stripCommas, digitsVal]
  have hlap : longAskPrice spreadRowLong = 10 := by
    simp [longAskPrice, ha2]
  have hconv : convertStringToDate putEnvW "Feb 25" = some 0 := by
    simp [convertStringToDate, splitOnSpace, monthNames, jsParseInt,
      putEnvW, digitsVal]
  have hdays : daysUntil putEnvW 0 = 1 := by
    norm_num [daysUntil, putEnvW, millisecondsInADay]
  have hty1 : spreadRowShort.expiryDate = some "Feb 25" := rfl
  have hty2 : spreadRowLong.expiryDate = some "Feb 25" := rfl
  have hqpow : ∀ x y : ℚ, putEnvW.qpow x y = 2 := fun _ _ => rfl
  intro sw hsw
  simp only [spreadWidths, List.mem_cons, List.not_mem_nil, or_false] at hsw
  rcases hsw with rfl | rfl | rfl | rfl | rfl | rfl | rfl | rfl <;>
  · simp only [evaluateCallCreditSpreadPerformance, groupByExpiry,
      List.foldl_cons, List.foldl_nil, groupPush, jsOrS, hty1, hty2,
      List.flatMap_cons, List.flatMap_nil]
    norm_num [evalShorts, evalOneShort,
      List.insertionSort, List.orderedInsert, strikeLe, hs1, hs2, hb1, hb2,
      hlap, hconv, hdays, findLongOption, jsLtO,
      calculatePercentageChange, hqpow, spreadResultAt]
    simp [hconv, hdays, jsLtO]
    norm_num

/-- Witness for C10: the concrete two-row chain at width 5 percent
emits a result whose long strike 220 lies strictly above its short
strike 100. -/
theorem evalSpread_long_above_short_witness :
    ∃ L, (spreadResultAt (5/100)).longStrike = some L ∧
      (spreadResultAt (5/100)).strikePrice < L := by
  have h5 := evalSpread_concrete (5/100) (by norm_num [spreadWidths])
  have hmem : spreadResultAt (5/100) ∈ evaluateCallCreditSpreadPerformance
      putEnvW [spreadRowShort, spreadRowLong] 100 "TST" [] (5/100) 15 := by
    rw [h5]
    exact List.mem_singleton_self _
  exact evalSpread_long_above_short putEnvW [spreadRowShort, spreadRowLong]
    100 "TST" [] (5/100) 15 (spreadResultAt (5/100)) hmem

/-- Witness for C4: on the example strikes the scan picks 107 for the
target 105, every skipped strike lies below the target, and the
long-leg price of the selected row resolves by the ask-else-bid rule. -/
theorem longLeg_nearest_above_selection_witness :
    ((100 * (1 + 5 / 100) : ℚ) ≤ parsedStrike link107 ∧
      ∃ pre post, [link103, link107] = pre ++ link107 :: post ∧
        ∀ row ∈ pre, parsedStrike row < 100 * (1 + 5 / 100)) ∧
    longAskPrice link107 =
      (if 0 < parsedCallAsk link107 then parsedCallAsk link107
       else parsedCallBid link107 * (11 / 10)) := by
  have hfind : findLongOption [link103, link107] (100 * (1 + 5 / 100)) =
      some link107 := by
    simp [findLongOption, link103, link107, parsedStrike, safeParseFloat,
      jsOrS, jsParseFloat, stripCommas, digitsVal]
    norm_num
  have hask : (0 : ℚ) ≤ parsedCallAsk link107 := by
    simp [parsedCallAsk, link107, jsOrS, safeParseFloat, jsParseFloat,
      stripCommas, digitsVal]
  exact ⟨longLeg_nearest_above_selection.1 _ _ _ hfind,
    longLeg_nearest_above_selection.2.1 link107 hask⟩

/-- Witness for C1: on the concrete two-row chain the optimizer emits
the deduplicated result, whose net credit and max risk are positive. -/
theorem findOptimal_positive_and_unique_witness :
    spreadResultAt (1/100) ∈ findOptimalCallCreditSpreads putEnvW
      [spreadRowShort, spreadRowLong] 100 "TST" [] 15 ∧
    0 < (spreadResultAt (1/100)).bid ∧
    (∃ L, (spreadResultAt (1/100)).longStrike = some L ∧
      0 < L - (spreadResultAt (1/100)).strikePrice -
        (spreadResultAt (1/100)).bid) := by
  have e1 := evalSpread_concrete (1/100) (by norm_num [spreadWidths])
  have e2 := evalSpread_concrete (2/100) (by norm_num [spreadWidths])
  have e3 := evalSpread_concrete (3/100) (by norm_num [spreadWidths])
  have e4 := evalSpread_concrete (5/100) (by norm_num [spreadWidths])
  have e5 := evalSpread_concrete (7/100) (by norm_num [spreadWidths])
  have e6 := evalSpread_concrete (10/100) (by norm_num [spreadWidths])
  have e7 := evalSpread_concrete (15/100) (by norm_num [spreadWidths])
  have e8 := evalSpread_concrete (20/100) (by norm_num [spreadWidths])
  have hout : findOptimalCallCreditSpreads putEnvW
      [spreadRowShort, spreadRowLong] 100 "TST" [] 15 =
      [spreadResultAt (1/100)] := by
    unfold findOptimalCallCreditSpreads
    simp only [spreadWidths, List.flatMap_cons, List.flatMap_nil,
      e1, e2, e3, e4, e5, e6, e7, e8, List.append_nil]
    norm_num [dedupInsert, keyOf, jsLtO, spreadResultAt,
      List.insertionSort, List.orderedInsert, annRoiDesc]
  have hmem : spreadResultAt (1/100) ∈ findOptimalCallCreditSpreads putEnvW
      [spreadRowShort, spreadRowLong] 100 "TST" [] 15 := by
    rw [hout]
    exact List.mem_singleton_self _
  exact ⟨hmem,
    (findOptimal_positive_and_unique putEnvW [spreadRowShort, spreadRowLong]
      100 "TST" [] 15).1 _ hmem⟩

/-- Witness for C5 at concrete inputs: with a 30-day horizon the
formula grows from return 0 to return 1, and with return 1 it shrinks
from a 30-day to a 60-day horizon. -/
theorem annualizedROIFormula_monotone_witness :
    annualizedROIFormula 0 30 < annualizedROIFormula 1 30 ∧
    annualizedROIFormula 1 60 < annualizedROIFormula 1 30 :=
  ⟨annualizedROIFormula_monotone.1 30 0 1 (by norm_num) (by norm_num)
     (by norm_num),
   annualizedROIFormula_monotone.2 1 30 60 (by norm_num) (by norm_num)
     (by norm_num)⟩

end OptionsTrading
